import Mathlib

/-!
Shallow embedding of the Finance-Coach-AI browser client
(`src/lib/financialUtils.ts`, `src/lib/api.ts`,
`src/components/auth/ProtectedRoute.tsx`, `src/components/FileUpload.tsx`,
`src/contexts/AuthContext.tsx`) together with proofs about it.

JavaScript numbers are modelled as rationals (`ℚ`); strings as Lean
`String`/`List Char`; `undefined`-able fields as `Option`; promise
rejection as `Except String`.
-/

namespace FinanceCoach

/-- A parsed bank-statement line item, from `src/lib/types.ts`
(`interface Transaction`). Optional fields are `Option`s. -/
structure Transaction where
  id : Option String
  date : String
  description : String
  category : String
  debit_inr : ℚ
  credit_inr : ℚ
  balance_inr : Option ℚ
  month : Option String
  userId : Option String
deriving DecidableEq, Repr

/-- The `interface CategorySummary` of `src/lib/types.ts`. -/
structure CategorySummary where
  month : Option String
  category : String
  total_spent : ℚ
  total_income : ℚ
  transactions : ℕ
  userId : Option String
deriving DecidableEq, Repr

/-- JavaScript `x || 0` on a number: `0` (and `NaN`, not modelled) are the
only falsy numbers, so on rationals this is the identity. -/
def jsOrZero (x : ℚ) : ℚ := if x = 0 then 0 else x

theorem jsOrZero_eq (x : ℚ) : jsOrZero x = x := by
  unfold jsOrZero; split <;> simp_all

/-- The running aggregate stored per category by `calculateCategoryTotals`:
`{ debit: number; credit: number; count: number }`. -/
structure CatEntry where
  debit : ℚ
  credit : ℚ
  count : ℕ
deriving DecidableEq, Repr

/-- An insertion-ordered map from category names to aggregates, the model of
the JavaScript `Map<string, {debit, credit, count}>`. -/
abbrev CatMap := List (String × CatEntry)

/-- Model of `Map.get`: first binding of the key, if any. -/
def mapGet (m : CatMap) (k : String) : Option CatEntry :=
  match m with
  | [] => none
  | (k', v) :: rest => if k' = k then some v else mapGet rest k

/-- Model of `Map.set`: overwrite the binding in place if the key exists, otherwise
append a new binding at the end (JavaScript `Map` insertion order). -/
def mapSet (m : CatMap) (k : String) (v : CatEntry) : CatMap :=
  match m with
  | [] => [(k, v)]
  | (k', v') :: rest =>
      if k' = k then (k, v) :: rest else (k', v') :: mapSet rest k v

/-- A transaction enters the aggregation iff its debit or credit amount is
positive (`if (debitAmount > 0 || creditAmount > 0)`). -/
def qualifies (t : Transaction) : Bool :=
  jsOrZero t.debit_inr > 0 || jsOrZero t.credit_inr > 0

/-- Folding one qualifying transaction into an aggregate, the record update
performed inside `calculateCategoryTotals`
(`{debit: existing.debit + debitAmount, credit: existing.credit +
creditAmount, count: existing.count + 1}`). -/
def addT (e : CatEntry) (t : Transaction) : CatEntry :=
  ⟨e.debit + jsOrZero t.debit_inr, e.credit + jsOrZero t.credit_inr,
   e.count + 1⟩

/-- The body of the `forEach` in `calculateCategoryTotals`: when the
transaction qualifies, `Map.set` the combined aggregate (the source's local
`existing` is `(mapGet m t.category).getD ⟨0,0,0⟩`, its `categoryMap.get(...)
|| {debit: 0, credit: 0, count: 0}`). -/
def catStep (m : CatMap) (t : Transaction) : CatMap :=
  if qualifies t then
    mapSet m t.category (addT ((mapGet m t.category).getD ⟨0, 0, 0⟩) t)
  else m

/-- The function `calculateCategoryTotals` from `src/lib/financialUtils.ts`: fold the
transactions into the category map, then turn each entry into a
`CategorySummary` (with `month` taken from the first transaction, `''` when
absent). -/
def calculateCategoryTotals (transactions : List Transaction) :
    List CategorySummary :=
  let categoryMap := transactions.foldl catStep []
  categoryMap.map (fun p =>
    { month := some (((transactions.head?.map (·.month)).join).getD "")
      category := p.1
      total_spent := p.2.debit
      total_income := p.2.credit
      transactions := p.2.count
      userId := none })

/-- The function `getTotalSpent` from `src/lib/financialUtils.ts`. -/
def getTotalSpent (transactions : List Transaction) : ℚ :=
  transactions.foldl (fun total t => total + jsOrZero t.debit_inr) 0

/-- The function `getTotalIncome` from `src/lib/financialUtils.ts`. -/
def getTotalIncome (transactions : List Transaction) : ℚ :=
  transactions.foldl (fun total t => total + jsOrZero t.credit_inr) 0

/-! ### Lemmas about the category map -/

/-- Keys of the map in insertion order. -/
def mapKeys (m : CatMap) : List String := m.map Prod.fst

/-- The qualifying transactions of category `c`, in list order. -/
def qualFor (c : String) (ts : List Transaction) : List Transaction :=
  ts.filter (fun t => qualifies t && t.category == c)

theorem mapGet_mapSet_self (m : CatMap) (k : String) (v : CatEntry) :
    mapGet (mapSet m k v) k = some v := by
  induction m with
  | nil => simp [mapSet, mapGet]
  | cons p rest ih =>
      obtain ⟨k', v'⟩ := p
      by_cases h : k' = k
      · simp [mapSet, h, mapGet]
      · simp [mapSet, h, mapGet, ih]

theorem mapGet_mapSet_ne (m : CatMap) (k c : String) (v : CatEntry)
    (h : k ≠ c) : mapGet (mapSet m k v) c = mapGet m c := by
  induction m with
  | nil => simp [mapSet, mapGet, h]
  | cons p rest ih =>
      obtain ⟨k', v'⟩ := p
      by_cases hk : k' = k
      · subst hk; simp [mapSet, mapGet, h]
      · simp only [mapSet, if_neg hk]
        by_cases hc : k' = c
        · simp [mapGet, hc]
        · simp [mapGet, hc, ih]

theorem mapKeys_mapSet (m : CatMap) (k : String) (v : CatEntry) :
    mapKeys (mapSet m k v) =
      if k ∈ mapKeys m then mapKeys m else mapKeys m ++ [k] := by
  induction m with
  | nil => simp [mapSet, mapKeys]
  | cons p rest ih =>
      obtain ⟨k', v'⟩ := p
      by_cases h : k' = k
      · simp [mapSet, h, mapKeys]
      · have hne : ¬ k = k' := fun hh => h hh.symm
        simp only [mapSet, if_neg h, mapKeys, List.map_cons, List.mem_cons]
        simp only [mapKeys] at ih
        rw [ih]
        by_cases hm : k ∈ rest.map Prod.fst
        · simp [hm, hne]
        · simp [hm, hne]

theorem mapKeys_nodup_mapSet (m : CatMap) (k : String) (v : CatEntry)
    (h : (mapKeys m).Nodup) : (mapKeys (mapSet m k v)).Nodup := by
  rw [mapKeys_mapSet]
  by_cases hm : k ∈ mapKeys m
  · simpa [hm] using h
  · simp only [hm, if_false]
    simpa [List.nodup_append] using ⟨h, hm⟩

theorem mapGet_eq_none_iff (m : CatMap) (c : String) :
    mapGet m c = none ↔ c ∉ mapKeys m := by
  induction m with
  | nil => simp [mapGet, mapKeys]
  | cons p rest ih =>
      obtain ⟨k', v'⟩ := p
      by_cases h : k' = c
      · subst h; simp [mapGet, mapKeys]
      · have h' : ¬ c = k' := fun hh => h hh.symm
        simp [mapGet, h, mapKeys, h', ih]

theorem mapGet_of_mem_nodup (m : CatMap) (k : String) (v : CatEntry)
    (hnd : (mapKeys m).Nodup) (hmem : (k, v) ∈ m) : mapGet m k = some v := by
  induction m with
  | nil => simp at hmem
  | cons p rest ih =>
      obtain ⟨k', v'⟩ := p
      simp only [mapKeys, List.map_cons, List.nodup_cons] at hnd
      rcases List.mem_cons.mp hmem with heq | hmem'
      · cases heq
        simp [mapGet]
      · have hk : k ∈ mapKeys rest :=
          List.mem_map.mpr ⟨(k, v), hmem', rfl⟩
        have hne : ¬ k' = k := fun hh => hnd.1 (hh ▸ hk)
        simp [mapGet, hne, ih hnd.2 hmem']

/-- When the transaction qualifies, `catStep` performs the `Map.set`. -/
theorem catStep_pos (m : CatMap) (t : Transaction) (hq : qualifies t = true) :
    catStep m t =
      mapSet m t.category (addT ((mapGet m t.category).getD ⟨0, 0, 0⟩) t) := by
  unfold catStep
  rw [hq]
  simp

/-- When the transaction does not qualify, `catStep` leaves the map alone. -/
theorem catStep_neg (m : CatMap) (t : Transaction) (hq : qualifies t = false) :
    catStep m t = m := by
  unfold catStep
  rw [hq]
  simp

theorem catStep_keys_nodup (m : CatMap) (t : Transaction)
    (h : (mapKeys m).Nodup) : (mapKeys (catStep m t)).Nodup := by
  cases hq : qualifies t
  · rw [catStep_neg m t hq]; exact h
  · rw [catStep_pos m t hq]; exact mapKeys_nodup_mapSet m t.category _ h

theorem foldl_catStep_keys_nodup (ts : List Transaction) :
    ∀ m : CatMap, (mapKeys m).Nodup → (mapKeys (ts.foldl catStep m)).Nodup := by
  induction ts with
  | nil => intro m h; simpa using h
  | cons t rest ih =>
      intro m h
      exact ih _ (catStep_keys_nodup m t h)

/-- Characterisation of the category map built by the `forEach` fold:
looking up `c` yields the fold of `addT` over the qualifying transactions of
category `c`, seeded by the entry already present. -/
theorem foldl_catStep_get (ts : List Transaction) :
    ∀ (m : CatMap) (c : String),
      mapGet (ts.foldl catStep m) c =
        if mapGet m c = none ∧ qualFor c ts = [] then none
        else some ((qualFor c ts).foldl addT ((mapGet m c).getD ⟨0, 0, 0⟩)) := by
  induction ts with
  | nil =>
      intro m c
      cases h : mapGet m c <;> simp [qualFor, h]
  | cons t rest ih =>
      intro m c
      rw [List.foldl_cons, ih]
      cases hq : qualifies t
      · have hfilter : qualFor c (t :: rest) = qualFor c rest := by
          simp [qualFor, List.filter_cons, hq]
        rw [catStep_neg m t hq, hfilter]
      · by_cases hc : t.category = c
        · have hget : mapGet (catStep m t) c =
              some (addT ((mapGet m c).getD ⟨0, 0, 0⟩) t) := by
            rw [catStep_pos m t hq, hc, mapGet_mapSet_self]
          have hfilter : qualFor c (t :: rest) = t :: qualFor c rest := by
            simp [qualFor, List.filter_cons, hq, hc]
          rw [hget, hfilter]
          simp
        · have hget : mapGet (catStep m t) c = mapGet m c := by
            rw [catStep_pos m t hq, mapGet_mapSet_ne _ _ _ _ hc]
          have hfilter : qualFor c (t :: rest) = qualFor c rest := by
            simp [qualFor, List.filter_cons, hc]
          rw [hget, hfilter]

theorem foldl_addT_debit (q : List Transaction) :
    ∀ e : CatEntry,
      (q.foldl addT e).debit = e.debit + (q.map (fun t => t.debit_inr)).sum := by
  induction q with
  | nil => intro e; simp
  | cons t rest ih =>
      intro e
      simp only [List.foldl_cons, List.map_cons, List.sum_cons, ih, addT,
        jsOrZero_eq]
      ring

theorem foldl_addT_credit (q : List Transaction) :
    ∀ e : CatEntry,
      (q.foldl addT e).credit = e.credit + (q.map (fun t => t.credit_inr)).sum := by
  induction q with
  | nil => intro e; simp
  | cons t rest ih =>
      intro e
      simp only [List.foldl_cons, List.map_cons, List.sum_cons, ih, addT,
        jsOrZero_eq]
      ring

theorem foldl_addT_count (q : List Transaction) :
    ∀ e : CatEntry, (q.foldl addT e).count = e.count + q.length := by
  induction q with
  | nil => intro e; simp
  | cons t rest ih =>
      intro e
      simp only [List.foldl_cons, List.length_cons, ih, addT]
      omega

/-- A transaction qualifies exactly when its debit or credit is positive. -/
theorem qualifies_iff (t : Transaction) :
    qualifies t = true ↔ 0 < t.debit_inr ∨ 0 < t.credit_inr := by
  simp [qualifies, jsOrZero_eq]

theorem mapGet_final (ts : List Transaction) (c : String) :
    mapGet (ts.foldl catStep []) c =
      if qualFor c ts = [] then none
      else some ((qualFor c ts).foldl addT ⟨0, 0, 0⟩) := by
  rw [foldl_catStep_get]
  simp [mapGet]

/-- C2: `calculateCategoryTotals` produces exactly one summary per category
owning a qualifying transaction, whose fields are that category's debit sum,
credit sum, and qualifying-transaction count. -/
theorem calculateCategoryTotals_spec (ts : List Transaction) :
    ((calculateCategoryTotals ts).map (fun s => s.category)).Nodup ∧
    ∀ c : String,
      ((∃ s ∈ calculateCategoryTotals ts, s.category = c) ↔
        ∃ t ∈ ts, t.category = c ∧ (0 < t.debit_inr ∨ 0 < t.credit_inr)) ∧
      ∀ s ∈ calculateCategoryTotals ts, s.category = c →
        s.total_spent = ((qualFor c ts).map (fun t => t.debit_inr)).sum ∧
        s.total_income = ((qualFor c ts).map (fun t => t.credit_inr)).sum ∧
        s.transactions = (qualFor c ts).length := by
  have hnd : (mapKeys (ts.foldl catStep [])).Nodup :=
    foldl_catStep_keys_nodup ts [] (by simp [mapKeys])
  constructor
  · unfold calculateCategoryTotals
    simpa [mapKeys, List.map_map, Function.comp] using hnd
  · intro c
    constructor
    · constructor
      · rintro ⟨s, hs, hc⟩
        unfold calculateCategoryTotals at hs
        simp only [List.mem_map] at hs
        obtain ⟨p, hp, hps⟩ := hs
        have hpc : p.1 = c := by rw [← hc, ← hps]
        have hget : mapGet (ts.foldl catStep []) c ≠ none := by
          intro hnone
          rw [mapGet_eq_none_iff] at hnone
          exact hnone (hpc ▸ List.mem_map.mpr ⟨p, hp, rfl⟩)
        rw [mapGet_final] at hget
        by_cases hqf : qualFor c ts = []
        · rw [if_pos hqf] at hget
          exact absurd rfl hget
        · obtain ⟨t, ht⟩ := List.exists_mem_of_ne_nil _ hqf
          have ht' : t ∈ ts ∧ qualifies t = true ∧ t.category = c := by
            simpa [qualFor, List.mem_filter] using ht
          exact ⟨t, ht'.1, ht'.2.2, (qualifies_iff t).mp ht'.2.1⟩
      · rintro ⟨t, htm, htc, htpos⟩
        have htq : qualifies t = true := (qualifies_iff t).mpr htpos
        have hne : qualFor c ts ≠ [] := by
          intro h
          have : t ∈ qualFor c ts := by
            simp [qualFor, List.mem_filter, htm, htq, htc]
          rw [h] at this
          simp at this
        have hget : mapGet (ts.foldl catStep []) c =
            some ((qualFor c ts).foldl addT ⟨0, 0, 0⟩) := by
          rw [mapGet_final]; simp [hne]
        have hmem : c ∈ mapKeys (ts.foldl catStep []) := by
          by_contra hmem
          rw [← mapGet_eq_none_iff] at hmem
          rw [hget] at hmem
          simp at hmem
        obtain ⟨p, hp, hpc⟩ := List.mem_map.mp hmem
        refine ⟨{ month := some (((ts.head?.map (·.month)).join).getD "")
                  category := p.1
                  total_spent := p.2.debit
                  total_income := p.2.credit
                  transactions := p.2.count
                  userId := none }, ?_, hpc⟩
        unfold calculateCategoryTotals
        exact List.mem_map.mpr ⟨p, hp, rfl⟩
    · intro s hs hc
      unfold calculateCategoryTotals at hs
      simp only [List.mem_map] at hs
      obtain ⟨p, hp, hps⟩ := hs
      obtain ⟨k, e⟩ := p
      have hk : k = c := by
        have : k = s.category := by rw [← hps]
        rw [this, hc]
      subst hk
      have hget : mapGet (ts.foldl catStep []) k = some e :=
        mapGet_of_mem_nodup _ _ _ hnd hp
      rw [mapGet_final] at hget
      by_cases hqf : qualFor k ts = []
      · simp [hqf] at hget
      · simp only [hqf, if_false, Option.some.injEq] at hget
        have hspent : s.total_spent = e.debit := by rw [← hps]
        have hincome : s.total_income = e.credit := by rw [← hps]
        have hcount : s.transactions = e.count := by rw [← hps]
        refine ⟨?_, ?_, ?_⟩
        · rw [hspent, ← hget, foldl_addT_debit]; simp
        · rw [hincome, ← hget, foldl_addT_credit]; simp
        · rw [hcount, ← hget, foldl_addT_count]; simp

/-! ### Conservation of totals (C9) -/

/-- Total debit recorded in the category map. -/
def debitSum (m : CatMap) : ℚ := (m.map (fun p => p.2.debit)).sum

/-- Total credit recorded in the category map. -/
def creditSum (m : CatMap) : ℚ := (m.map (fun p => p.2.credit)).sum

theorem debitSum_mapSet_add (m : CatMap) (k : String) (t : Transaction) :
    debitSum (mapSet m k (addT ((mapGet m k).getD ⟨0, 0, 0⟩) t)) =
      debitSum m + t.debit_inr := by
  induction m with
  | nil => simp [mapSet, mapGet, debitSum, addT, jsOrZero_eq]
  | cons p rest ih =>
      obtain ⟨k', v'⟩ := p
      by_cases h : k' = k
      · subst h
        have h1 : mapGet ((k', v') :: rest) k' = some v' := by simp [mapGet]
        have h2 : mapSet ((k', v') :: rest) k' (addT v' t) =
            (k', addT v' t) :: rest := by simp [mapSet]
        rw [h1, Option.getD_some, h2]
        simp [debitSum, addT, jsOrZero_eq]
        ring
      · have h1 : mapGet ((k', v') :: rest) k = mapGet rest k := by
          simp [mapGet, h]
        have h2 : ∀ v, mapSet ((k', v') :: rest) k v =
            (k', v') :: mapSet rest k v := by
          intro v; simp [mapSet, h]
        rw [h1, h2]
        simp only [debitSum, List.map_cons, List.sum_cons] at ih ⊢
        rw [ih]
        ring

theorem creditSum_mapSet_add (m : CatMap) (k : String) (t : Transaction) :
    creditSum (mapSet m k (addT ((mapGet m k).getD ⟨0, 0, 0⟩) t)) =
      creditSum m + t.credit_inr := by
  induction m with
  | nil => simp [mapSet, mapGet, creditSum, addT, jsOrZero_eq]
  | cons p rest ih =>
      obtain ⟨k', v'⟩ := p
      by_cases h : k' = k
      · subst h
        have h1 : mapGet ((k', v') :: rest) k' = some v' := by simp [mapGet]
        have h2 : mapSet ((k', v') :: rest) k' (addT v' t) =
            (k', addT v' t) :: rest := by simp [mapSet]
        rw [h1, Option.getD_some, h2]
        simp [creditSum, addT, jsOrZero_eq]
        ring
      · have h1 : mapGet ((k', v') :: rest) k = mapGet rest k := by
          simp [mapGet, h]
        have h2 : ∀ v, mapSet ((k', v') :: rest) k v =
            (k', v') :: mapSet rest k v := by
          intro v; simp [mapSet, h]
        rw [h1, h2]
        simp only [creditSum, List.map_cons, List.sum_cons] at ih ⊢
        rw [ih]
        ring

theorem debitSum_foldl (ts : List Transaction) :
    ∀ m : CatMap,
      debitSum (ts.foldl catStep m) =
        debitSum m + ((ts.filter qualifies).map (fun t => t.debit_inr)).sum := by
  induction ts with
  | nil => intro m; simp
  | cons t rest ih =>
      intro m
      rw [List.foldl_cons, ih]
      cases hq : qualifies t
      · rw [catStep_neg m t hq]
        simp [List.filter_cons, hq]
      · rw [catStep_pos m t hq, debitSum_mapSet_add]
        simp only [List.filter_cons, hq, if_pos, List.map_cons, List.sum_cons]
        ring

theorem creditSum_foldl (ts : List Transaction) :
    ∀ m : CatMap,
      creditSum (ts.foldl catStep m) =
        creditSum m + ((ts.filter qualifies).map (fun t => t.credit_inr)).sum := by
  induction ts with
  | nil => intro m; simp
  | cons t rest ih =>
      intro m
      rw [List.foldl_cons, ih]
      cases hq : qualifies t
      · rw [catStep_neg m t hq]
        simp [List.filter_cons, hq]
      · rw [catStep_pos m t hq, creditSum_mapSet_add]
        simp only [List.filter_cons, hq, if_pos, List.map_cons, List.sum_cons]
        ring

theorem foldl_add_eq_sum (f : Transaction → ℚ) (ts : List Transaction) :
    ∀ a : ℚ, ts.foldl (fun acc t => acc + f t) a = a + (ts.map f).sum := by
  induction ts with
  | nil => intro a; simp
  | cons t rest ih =>
      intro a
      rw [List.foldl_cons, ih, List.map_cons, List.sum_cons]
      ring

theorem filter_map_sum_eq (q : Transaction → Bool) (f : Transaction → ℚ)
    (ts : List Transaction) (h : ∀ t ∈ ts, q t = false → f t = 0) :
    ((ts.filter q).map f).sum = (ts.map f).sum := by
  induction ts with
  | nil => simp
  | cons t rest ih =>
      have hrest : ∀ t ∈ rest, q t = false → f t = 0 :=
        fun t' ht' => h t' (List.mem_cons_of_mem _ ht')
      cases hq : q t
      · rw [List.filter_cons, if_neg (by simp [hq]), List.map_cons,
          List.sum_cons, h t (List.mem_cons_self _ _) hq, ih hrest]
        ring
      · rw [List.filter_cons, if_pos (by simp [hq]), List.map_cons,
          List.map_cons, List.sum_cons, List.sum_cons, ih hrest]

theorem getTotalSpent_eq_sum (ts : List Transaction) :
    getTotalSpent ts = (ts.map (fun t => t.debit_inr)).sum := by
  unfold getTotalSpent
  have : (fun (total : ℚ) (t : Transaction) => total + jsOrZero t.debit_inr) =
      fun total t => total + t.debit_inr := by
    funext total t; rw [jsOrZero_eq]
  rw [this, foldl_add_eq_sum (fun t => t.debit_inr) ts 0]
  ring

theorem getTotalIncome_eq_sum (ts : List Transaction) :
    getTotalIncome ts = (ts.map (fun t => t.credit_inr)).sum := by
  unfold getTotalIncome
  have : (fun (total : ℚ) (t : Transaction) => total + jsOrZero t.credit_inr) =
      fun total t => total + t.credit_inr := by
    funext total t; rw [jsOrZero_eq]
  rw [this, foldl_add_eq_sum (fun t => t.credit_inr) ts 0]
  ring

/-- C9: for nonnegative amounts, the summaries partition the grand totals:
summing `total_spent` over `calculateCategoryTotals` gives `getTotalSpent`,
and likewise for `total_income` and `getTotalIncome`. -/
theorem categoryTotals_sum_eq_totals (ts : List Transaction)
    (h : ∀ t ∈ ts, 0 ≤ t.debit_inr ∧ 0 ≤ t.credit_inr) :
    ((calculateCategoryTotals ts).map (fun s => s.total_spent)).sum =
      getTotalSpent ts ∧
    ((calculateCategoryTotals ts).map (fun s => s.total_income)).sum =
      getTotalIncome ts := by
  have hspent : ((calculateCategoryTotals ts).map (fun s => s.total_spent)).sum =
      debitSum (ts.foldl catStep []) := by
    unfold calculateCategoryTotals debitSum
    rw [List.map_map]
    rfl
  have hincome : ((calculateCategoryTotals ts).map (fun s => s.total_income)).sum =
      creditSum (ts.foldl catStep []) := by
    unfold calculateCategoryTotals creditSum
    rw [List.map_map]
    rfl
  have hzero_d : ∀ t ∈ ts, qualifies t = false → t.debit_inr = 0 := by
    intro t ht hq
    have := (h t ht).1
    have hnq : ¬ (0 < t.debit_inr ∨ 0 < t.credit_inr) := by
      rw [← qualifies_iff, hq]; simp
    push_neg at hnq
    linarith [hnq.1]
  have hzero_c : ∀ t ∈ ts, qualifies t = false → t.credit_inr = 0 := by
    intro t ht hq
    have := (h t ht).2
    have hnq : ¬ (0 < t.debit_inr ∨ 0 < t.credit_inr) := by
      rw [← qualifies_iff, hq]; simp
    push_neg at hnq
    linarith [hnq.2]
  constructor
  · rw [hspent, debitSum_foldl,
      filter_map_sum_eq qualifies (fun t => t.debit_inr) ts hzero_d,
      getTotalSpent_eq_sum]
    simp [debitSum]
  · rw [hincome, creditSum_foldl,
      filter_map_sum_eq qualifies (fun t => t.credit_inr) ts hzero_c,
      getTotalIncome_eq_sum]
    simp [creditSum]

/-- Concrete transactions used as witnesses. -/
def txGrocery : Transaction :=
  { id := some "t1", date := "2024-01-03", description := "groceries"
    category := "Food", debit_inr := 250, credit_inr := 0
    balance_inr := none, month := some "2024-01", userId := none }

/-- A second concrete transaction, a salary credit. -/
def txSalary : Transaction :=
  { id := some "t2", date := "2024-01-05", description := "salary"
    category := "Salary", debit_inr := 0, credit_inr := 50000
    balance_inr := none, month := some "2024-01", userId := none }

/-- A third concrete transaction, another Food debit. -/
def txSnacks : Transaction :=
  { id := some "t3", date := "2024-01-09", description := "snacks"
    category := "Food", debit_inr := 40, credit_inr := 0
    balance_inr := none, month := some "2024-01", userId := none }

/-- Witness for C9 at a concrete three-transaction list. -/
theorem categoryTotals_sum_eq_totals_witness :
    ((calculateCategoryTotals [txGrocery, txSalary, txSnacks]).map
        (fun s => s.total_spent)).sum =
      getTotalSpent [txGrocery, txSalary, txSnacks] ∧
    ((calculateCategoryTotals [txGrocery, txSalary, txSnacks]).map
        (fun s => s.total_income)).sum =
      getTotalIncome [txGrocery, txSalary, txSnacks] :=
  categoryTotals_sum_eq_totals [txGrocery, txSalary, txSnacks] (by decide)

/-! ### `sortTransactions` (C10) -/

/-- The `keyof Transaction` union: the field names a caller may sort by. -/
inductive TransactionField where
  | id | date | fdescription | category | debit_inr | credit_inr
  | balance_inr | month | userId
deriving DecidableEq, Repr

/-- The dynamic value `a[field]` seen by the comparator: a string, a number,
or `undefined` (for absent optional fields). -/
inductive JsVal where
  | str (s : String)
  | num (q : ℚ)
  | jsUndefined
deriving DecidableEq, Repr

/-- Field projection `a[field]`. -/
def fieldValue (t : Transaction) : TransactionField → JsVal
  | .id => match t.id with | some s => .str s | none => .jsUndefined
  | .date => .str t.date
  | .fdescription => .str t.description
  | .category => .str t.category
  | .debit_inr => .num t.debit_inr
  | .credit_inr => .num t.credit_inr
  | .balance_inr => match t.balance_inr with | some q => .num q | none => .jsUndefined
  | .month => match t.month with | some s => .str s | none => .jsUndefined
  | .userId => match t.userId with | some s => .str s | none => .jsUndefined

/-- Sort direction `'asc' | 'desc'`. -/
inductive SortDirection where
  | asc | desc
deriving DecidableEq, Repr

/-- Model of `String.prototype.localeCompare`: a three-valued comparison
(sign is all the sort consumes). -/
def localeCmp (a b : String) : Int :=
  match compare a b with
  | .lt => -1
  | .eq => 0
  | .gt => 1

/-- The comparator body of `sortTransactions`: strings via `localeCompare`,
numbers via subtraction, mixed/`undefined` operands compare equal (`return
0`). -/
def txCompare (field : TransactionField) (direction : SortDirection)
    (a b : Transaction) : ℚ :=
  match fieldValue a field, fieldValue b field with
  | .str s, .str u =>
      match direction with
      | .asc => (localeCmp s u : ℚ)
      | .desc => (localeCmp u s : ℚ)
  | .num x, .num y =>
      match direction with
      | .asc => x - y
      | .desc => y - x
  | _, _ => 0

/-- The function `sortTransactions` from `src/lib/financialUtils.ts`: sort a copy
(`[...transactions].sort(...)`) with the comparator above, modelled by the
stable `mergeSort` keeping `a` before `b` whenever the comparator is `≤ 0`. -/
def sortTransactions (transactions : List Transaction)
    (field : TransactionField) (direction : SortDirection) :
    List Transaction :=
  List.mergeSort transactions
    (fun a b => txCompare field direction a b ≤ 0)

/-- C10: `sortTransactions` returns a permutation of its input for every
field and direction (and, the embedding being pure over a copied list, the
input list itself is untouched). -/
theorem sortTransactions_perm (transactions : List Transaction)
    (field : TransactionField) (direction : SortDirection) :
    (sortTransactions transactions field direction).Perm transactions :=
  List.mergeSort_perm transactions _

/-! ### `ProtectedRoute` (C6) -/

/-- The Firebase `User` as consumed by the guard. -/
structure AuthUser where
  uid : String
  email : Option String
deriving DecidableEq, Repr

/-- What `ProtectedRoute` renders: the loading spinner, a `<Navigate>`
redirect, or its children. -/
inductive RouteRender where
  | spinner
  | navigate (dest : String) (replaceHistory : Bool)
  | children
deriving DecidableEq, Repr

/-- The guard `ProtectedRoute` from `src/components/auth/ProtectedRoute.tsx`:
spinner while `loading`; `<Navigate to="/login" replace>` when `!user`;
otherwise the children. -/
def ProtectedRoute (loading : Bool) (user : Option AuthUser) : RouteRender :=
  if loading then .spinner
  else match user with
    | none => .navigate "/login" true
    | some _ => .children

/-- C6: once loading is over, children render iff a user is present, and an
absent user yields the `/login` redirect. -/
theorem protectedRoute_spec (loading : Bool) (user : Option AuthUser)
    (h : loading = false) :
    (ProtectedRoute loading user = RouteRender.children ↔ user ≠ none) ∧
    (user = none →
      ProtectedRoute loading user = RouteRender.navigate "/login" true) := by
  subst h
  cases user <;> simp [ProtectedRoute]

/-- Witness for C6: with loading finished and no user signed in, the guard
emits the `/login` redirect and not the children. -/
theorem protectedRoute_spec_witness :
    (ProtectedRoute false none = RouteRender.children ↔
      (none : Option AuthUser) ≠ none) ∧
    ProtectedRoute false none = RouteRender.navigate "/login" true :=
  ⟨(protectedRoute_spec false none rfl).1,
   (protectedRoute_spec false none rfl).2 rfl⟩

/-! ### The typed HTTP client `ApiClient` (`src/lib/api.ts`), C1/C3/C4/C5

Promise rejection is modelled as `Except.error` carrying the thrown
`Error`'s message. JSON payload fields other than strings, numbers,
booleans, arrays, objects and `null` do not occur. -/

/-- A parsed JSON value. -/
inductive Json where
  | obj (fields : List (String × Json))
  | arr (elems : List Json)
  | str (s : String)
  | num (q : ℚ)
  | jbool (b : Bool)
  | null

/-- Object field access `j.k` (first binding; `none` when absent or when the
value is not an object). -/
def jsonField (j : Json) (k : String) : Option Json :=
  match j with
  | .obj fs => fs.lookup k
  | _ => none

/-- The string value of field `k`, when present and a string. -/
def getStrField (j : Json) (k : String) : Option String :=
  match jsonField j k with
  | some (.str s) => some s
  | _ => none

/-- JavaScript `x || y` on a string-or-`undefined` `x`: the empty string is
falsy and falls through to `y`. -/
def jsOrStr (x : Option String) (y : String) : String :=
  match x with
  | some s => if s = "" then y else s
  | none => y

/-- The `fetch` `Response` as consumed by `request`: `ok`, `status`,
`statusText`, and the result of `response.json()` (`none` when the body is
not valid JSON, in which case `response.json()` rejects). -/
structure HttpResponse where
  ok : Bool
  status : ℕ
  statusText : String
  body : Option Json

/-- Message of the `SyntaxError` thrown by `response.json()` on a non-JSON
body, which `request` rethrows on the ok path. -/
def jsonParseErrorMsg : String := "Unexpected end of JSON input"

/-- The error message computed by `request` for a non-ok response:
`errorData.detail || errorData.message || 'HTTP status: statusText'`, with
`errorData = {}` when the body did not parse. -/
def requestErrorMessage (r : HttpResponse) : String :=
  let errorData := r.body.getD (Json.obj [])
  jsOrStr (getStrField errorData "detail")
    (jsOrStr (getStrField errorData "message")
      ("HTTP " ++ toString r.status ++ ": " ++ r.statusText))

/-- The response handling of `ApiClient.request` (`src/lib/api.ts`): throw
the normalized error on a non-ok status, otherwise return the parsed JSON
body (rethrowing the parse error of `response.json()` when the ok body is
not JSON). -/
def handleResponse (r : HttpResponse) : Except String Json :=
  if r.ok then
    match r.body with
    | some j => .ok j
    | none => .error jsonParseErrorMsg
  else .error (requestErrorMessage r)

/-- Spec-worded error normalization for the amended C3: the `detail` field
when present and non-empty, else the `message` field when present and
non-empty, else `HTTP status: statusText`. -/
def specErrorMessage (r : HttpResponse) : String :=
  let errorData := r.body.getD (Json.obj [])
  let fallback :=
    match getStrField errorData "message" with
    | some u => if u ≠ "" then u else "HTTP " ++ toString r.status ++ ": " ++ r.statusText
    | none => "HTTP " ++ toString r.status ++ ": " ++ r.statusText
  match getStrField errorData "detail" with
  | some s => if s ≠ "" then s else fallback
  | none => fallback

/-- A non-ok response whose body carries an empty `detail` and a non-empty
`message`. -/
def respEmptyDetail : HttpResponse :=
  { ok := false, status := 400, statusText := "Bad Request"
    body := some (Json.obj [("detail", Json.str ""), ("message", Json.str "boom")]) }

/-- C3 counterexample: `detail` is present (the empty string), yet the
thrown message is the `message` field, not `detail`. -/
theorem requestError_detail_counterexample :
    jsonField (respEmptyDetail.body.getD (Json.obj [])) "detail" =
      some (Json.str "") ∧
    handleResponse respEmptyDetail = Except.error "boom" ∧
    "boom" ≠ "" := by
  refine ⟨rfl, ?_, by decide⟩
  rfl

/-- C3 (amended): non-ok responses throw the first non-empty of `detail`,
`message`, and the HTTP fallback; ok responses with a parseable body return
the parsed JSON unchanged. -/
theorem handleResponse_spec (r : HttpResponse) :
    (r.ok = false → handleResponse r = Except.error (specErrorMessage r)) ∧
    (r.ok = true → ∀ j : Json, r.body = some j → handleResponse r = Except.ok j) := by
  constructor
  · intro hok
    unfold handleResponse requestErrorMessage specErrorMessage jsOrStr
    rw [hok]
    simp only [Bool.false_eq_true, if_false]
    cases hd : getStrField (r.body.getD (Json.obj [])) "detail" with
    | none =>
        cases hm : getStrField (r.body.getD (Json.obj [])) "message" with
        | none => rfl
        | some u => by_cases hu : u = "" <;> simp [hu]
    | some s =>
        by_cases hs : s = ""
        · subst hs
          cases hm : getStrField (r.body.getD (Json.obj [])) "message" with
          | none => simp
          | some u => by_cases hu : u = "" <;> simp [hu]
        · simp [hs]
  · intro hok j hj
    unfold handleResponse
    rw [hok, hj]
    simp

/-- A concrete non-ok response carrying only a `detail`. -/
def respNotFound : HttpResponse :=
  { ok := false, status := 404, statusText := "Not Found"
    body := some (Json.obj [("detail", Json.str "no data")]) }

/-- A concrete ok response with a parseable body. -/
def respOkPong : HttpResponse :=
  { ok := true, status := 200, statusText := "OK"
    body := some (Json.str "pong") }

/-- Witness for C3 (amended) at concrete responses: a non-ok response with
only a `detail` throws it; an ok response returns its body. -/
theorem handleResponse_spec_witness :
    handleResponse respNotFound =
      Except.error (specErrorMessage respNotFound) ∧
    handleResponse respOkPong = Except.ok (Json.str "pong") :=
  ⟨(handleResponse_spec respNotFound).1 rfl,
   (handleResponse_spec respOkPong).2 rfl (Json.str "pong") rfl⟩

/-! ### Timeout and abort (C4)

`request` arms one timer (`setTimeout(() => controller.abort(), timeout)`)
and clears it as soon as `fetch` settles. Discrete time in milliseconds:
the fetch settles at `completionMs`; the timer would fire at the deadline.
Whichever comes first decides the race (`fetchSettles` wins ties, i.e. a
fetch settling within the deadline is followed by `clearTimeout`). -/

/-- Which of the two scheduled events happens first. -/
inductive ReqEvent where
  | fetchSettles
  | timerFires
deriving DecidableEq, Repr

/-- The race between fetch settlement and the abort timer. -/
def firstEvent (completionMs deadlineMs : ℕ) : ReqEvent :=
  if completionMs ≤ deadlineMs then .fetchSettles else .timerFires

/-- One run of `ApiClient.request` with its timing: the deadline is the
configured `this.timeout`. Returns whether `controller.abort()` ran, and
the settled result (an `AbortError`-rejected fetch is mapped by the catch
block to the timeout `Error`). -/
def requestRun (completionMs timeoutMs : ℕ) (r : HttpResponse) :
    Bool × Except String Json :=
  match firstEvent completionMs timeoutMs with
  | .fetchSettles => (false, handleResponse r)
  | .timerFires => (true, .error "Request timeout - please try again")

/-- One run of the enhanced `ApiClient.uploadFile` (second revision in
`src/lib/api.ts`, lines 250-305): its deadline is
`Math.max(this.timeout, 180000)`, not the configured timeout itself. -/
def uploadFileRun (completionMs timeoutMs : ℕ) (r : HttpResponse) :
    Bool × Except String Json :=
  match firstEvent completionMs (max timeoutMs 180000) with
  | .fetchSettles => (false, handleResponse r)
  | .timerFires =>
      (true, .error ("Upload timeout - Your file is being processed in the " ++
        "background. Please check back in a few minutes or try uploading a " ++
        "smaller file."))

/-- A successful upload response body. -/
def uploadOkResp : HttpResponse :=
  { ok := true, status := 200, statusText := "OK"
    body := some (Json.obj [("success", Json.jbool true)]) }

/-- C4 counterexample: with the client configured to a 30 s timeout, an
upload that only settles after 100 s (beyond the configured timeout) is
not aborted and returns normally, because `uploadFile` stretches the
deadline to `max(timeout, 180000)`. -/
theorem uploadFile_ignores_configured_timeout :
    30000 < 100000 ∧
    uploadFileRun 100000 30000 uploadOkResp =
      (false, Except.ok (Json.obj [("success", Json.jbool true)])) := by
  constructor
  · decide
  · rfl

/-- C4 (amended): `request` aborts and throws the timeout error exactly when
the fetch exceeds the configured timeout; `uploadFile` does so when it
exceeds `max(configured, 180000)`; a fetch settling within the respective
deadline never triggers the abort. -/
theorem request_timeout_spec (completionMs timeoutMs : ℕ) (r : HttpResponse) :
    (timeoutMs < completionMs →
      requestRun completionMs timeoutMs r =
        (true, Except.error "Request timeout - please try again")) ∧
    (completionMs ≤ timeoutMs →
      (requestRun completionMs timeoutMs r).1 = false) ∧
    (max timeoutMs 180000 < completionMs →
      (uploadFileRun completionMs timeoutMs r).1 = true) ∧
    (completionMs ≤ max timeoutMs 180000 →
      (uploadFileRun completionMs timeoutMs r).1 = false) := by
  refine ⟨?_, ?_, ?_, ?_⟩
  · intro h
    unfold requestRun firstEvent
    rw [if_neg (by omega)]
  · intro h
    unfold requestRun firstEvent
    rw [if_pos h]
  · intro h
    unfold uploadFileRun firstEvent
    rw [if_neg (by omega)]
  · intro h
    unfold uploadFileRun firstEvent
    rw [if_pos h]

/-- Witness for C4 (amended) at concrete times: a 40 s fetch against a 30 s
timeout aborts with the timeout error, a 10 s fetch does not; a 200 s upload
aborts, a 100 s upload does not. -/
theorem request_timeout_spec_witness :
    requestRun 40000 30000 uploadOkResp =
      (true, Except.error "Request timeout - please try again") ∧
    (requestRun 10000 30000 uploadOkResp).1 = false ∧
    (uploadFileRun 200000 30000 uploadOkResp).1 = true ∧
    (uploadFileRun 100000 30000 uploadOkResp).1 = false :=
  ⟨(request_timeout_spec 40000 30000 uploadOkResp).1 (by decide),
   (request_timeout_spec 10000 30000 uploadOkResp).2.1 (by decide),
   (request_timeout_spec 200000 30000 uploadOkResp).2.2.1 (by decide),
   (request_timeout_spec 100000 30000 uploadOkResp).2.2.2 (by decide)⟩

/-! ### No retry (C5)

`request` contains a single `fetch` call. The fetch oracle gives the
outcome each successive attempt would have; the run records which attempt
indices were actually fetched. -/

/-- Outcome of one would-be fetch attempt: a settled response, or a network
rejection with the given error message. -/
inductive FetchOutcome where
  | success (r : HttpResponse)
  | failure (msg : String)

/-- One call of `ApiClient.request` against the oracle: the body performs
exactly one `fetch` (attempt `0`); a rejection that is an `Error` and not an
`AbortError` is rethrown as-is by the catch block. -/
def requestFetches (oracle : ℕ → FetchOutcome) :
    List ℕ × Except String Json :=
  match oracle 0 with
  | .success r => ([0], handleResponse r)
  | .failure msg => ([0], .error msg)

/-- C5 counterexample: a request whose first attempt fails with a network
error performs exactly one fetch and reports that error — no second attempt
is issued (the claim's retry does not exist). -/
theorem request_no_retry_counterexample :
    (requestFetches (fun _ => FetchOutcome.failure "NetworkError")).1 = [0] ∧
    (requestFetches (fun _ => FetchOutcome.failure "NetworkError")).2 =
      Except.error "NetworkError" := by
  exact ⟨rfl, rfl⟩

/-- C5 (amended): every `request` call issues exactly one fetch, and a
failed first attempt is reported to the caller without a retry. -/
theorem request_no_retry (oracle : ℕ → FetchOutcome) :
    (requestFetches oracle).1 = [0] ∧
    ∀ msg : String, oracle 0 = FetchOutcome.failure msg →
      (requestFetches oracle).2 = Except.error msg := by
  constructor
  · unfold requestFetches
    cases oracle 0 <;> rfl
  · intro msg hmsg
    unfold requestFetches
    rw [hmsg]

/-- Witness for C5 (amended) at a concrete failing oracle. -/
theorem request_no_retry_witness :
    (requestFetches (fun _ => FetchOutcome.failure "boom")).1 = [0] ∧
    (requestFetches (fun _ => FetchOutcome.failure "boom")).2 =
      Except.error "boom" :=
  ⟨(request_no_retry (fun _ => FetchOutcome.failure "boom")).1,
   (request_no_retry (fun _ => FetchOutcome.failure "boom")).2 "boom" rfl⟩

/-! ### Request headers and the user identifier (C1) -/

/-- JavaScript object spread `{...base, ...extra}` on string-keyed records:
keys of `base` keep their position but take the later value when `extra`
repeats them; fresh keys of `extra` are appended. -/
def objSpread (base extra : List (String × String)) :
    List (String × String) :=
  base.map (fun p => (p.1, ((extra.lookup p.1).getD p.2))) ++
    extra.filter (fun q => (base.lookup q.1).isNone)

/-- The headers object built by `ApiClient.request`:
`{'Content-Type': 'application/json', ...options.headers}`. -/
def requestHeaders (optionHeaders : List (String × String)) :
    List (String × String) :=
  objSpread [("Content-Type", "application/json")] optionHeaders

/-- The methods defined on `ApiClient` (first revision of
`src/lib/api.ts`). -/
def apiClientMethods : List String :=
  ["request", "uploadFile", "getFinancialData", "getAvailableMonths",
   "sendChatMessage", "getIPORecommendations", "getStockRecommendations",
   "getInvestmentAdvice", "healthCheck", "testConnection"]

/-- The methods defined on `ApiClient` in the enhanced revision (second copy
in `src/lib/api.ts` / `unnamed/part_009`). -/
def enhancedApiClientMethods : List String :=
  ["request", "uploadFile", "getFinancialData", "getAvailableMonths",
   "sendChatMessage", "clearChatHistory", "getChatHistory",
   "getChatSessions", "getIPORecommendations", "getStockRecommendations",
   "getInvestmentAdvice", "healthCheck", "getInsights", "testConnection"]

/-- The `ApiClient` method the `onAuthStateChanged` listener in
`src/contexts/AuthContext.tsx` invokes to register the signed-in user. -/
def authStateChangeCall : String := "setCurrentUserId"

/-- No `request` caller in the client passes an `options.headers`; the
`options.headers` of every issued request is absent (`{}`). -/
def issuedRequestHeaders : List (String × String) := requestHeaders []

/-- C1 (code bug): the only header `request` ever attaches is
`Content-Type`; no user identifier header exists, and the
`setCurrentUserId` method `AuthContext` relies on is defined in no
`ApiClient` revision. -/
theorem request_carries_no_user_header :
    issuedRequestHeaders = [("Content-Type", "application/json")] ∧
    (∀ p ∈ issuedRequestHeaders, p.1 = "Content-Type") ∧
    authStateChangeCall ∉ apiClientMethods ∧
    authStateChangeCall ∉ enhancedApiClientMethods := by
  refine ⟨rfl, ?_, by decide, by decide⟩
  intro p hp
  have : p = ("Content-Type", "application/json") := by
    simpa [issuedRequestHeaders, requestHeaders, objSpread] using hp
  rw [this]

/-! ### Chat response clean-up (C8)

`sendChatMessage` (enhanced revision) post-processes a truthy
`result.response` with
`.replace(/\n{3,}/g, '\n\n').replace(/\*\*/g, '').replace(/\*/g, '')`. -/

/-- Step `replace(/\n{3,}/g, '\n\n')` on a character list: each maximal run of
`k ≥ 3` newlines becomes two, shorter runs pass through. `k` counts the
newline run accumulated so far. -/
def collapseGo (k : ℕ) : List Char → List Char
  | [] => List.replicate (if 3 ≤ k then 2 else k) '\n'
  | c :: rest =>
      if c = '\n' then collapseGo (k + 1) rest
      else List.replicate (if 3 ≤ k then 2 else k) '\n' ++ c :: collapseGo 0 rest

/-- Step `replace(/\n{3,}/g, '\n\n')`. -/
def collapseNewlines (l : List Char) : List Char := collapseGo 0 l

/-- Step `replace(/\*\*/g, '')`: erase non-overlapping `**` pairs left to
right. -/
def removeDoubleStar : List Char → List Char
  | [] => []
  | [c] => [c]
  | a :: b :: rest =>
      if a = '*' ∧ b = '*' then removeDoubleStar rest
      else a :: removeDoubleStar (b :: rest)

/-- Step `replace(/\*/g, '')`: erase every remaining `*`. -/
def removeStar (l : List Char) : List Char := l.filter (fun c => c ≠ '*')

/-- The clean-up pipeline applied to a truthy `result.response`. -/
def cleanResponse (s : String) : String :=
  ((removeStar (removeDoubleStar (collapseNewlines s.toList)))).asString

/-- The `response` string `sendChatMessage` hands to the caller: cleaned
when truthy (non-empty), untouched otherwise. -/
def sendChatResponse (backend : String) : String :=
  if backend = "" then backend else cleanResponse backend

/-- Three consecutive newline characters occur somewhere in the list. -/
def hasTripleNewline : List Char → Bool
  | a :: b :: c :: rest =>
      (a = '\n' && b = '\n' && c = '\n') || hasTripleNewline (b :: c :: rest)
  | _ => false

/-- C8 counterexample: the backend string `"\n\n*\n\n"` has no triple
newline, but stripping the `*` joins the two runs, so the delivered string
contains four consecutive newlines. -/
theorem sendChatResponse_triple_newline_counterexample :
    sendChatResponse "\n\n*\n\n" = "\n\n\n\n" ∧
    hasTripleNewline (sendChatResponse "\n\n*\n\n").toList = true := by
  constructor <;> rfl

theorem hasTripleNewline_cons_ne (c : Char) (t : List Char) (hc : c ≠ '\n') :
    hasTripleNewline (c :: t) = hasTripleNewline t := by
  match t with
  | [] => rfl
  | [x] => rfl
  | x :: y :: rest => simp [hasTripleNewline, hc]

theorem hasTripleNewline_nl_ne (c : Char) (t : List Char) (hc : c ≠ '\n') :
    hasTripleNewline ('\n' :: c :: t) = hasTripleNewline (c :: t) := by
  match t with
  | [] => rfl
  | x :: rest => simp [hasTripleNewline, hc]

theorem hasTripleNewline_two_nl (c : Char) (t : List Char) (hc : c ≠ '\n') :
    hasTripleNewline ('\n' :: '\n' :: c :: t) = hasTripleNewline t := by
  simp only [hasTripleNewline, hasTripleNewline_nl_ne c t hc,
    hasTripleNewline_cons_ne c t hc]
  simp [hc]

theorem hasTripleNewline_replicate_pad (j : ℕ) (hj : j ≤ 2) (t : List Char) :
    (∀ c t', t = c :: t' → c ≠ '\n') →
    hasTripleNewline t = false →
    hasTripleNewline (List.replicate j '\n' ++ t) = false := by
  intro hhead ht
  interval_cases j
  · simpa using ht
  · simp only [List.replicate, List.nil_append, List.cons_append]
    cases t with
    | nil => rfl
    | cons c t' =>
        have hc : c ≠ '\n' := hhead c t' rfl
        rw [hasTripleNewline_nl_ne c t' hc]
        exact ht
  · simp only [List.replicate, List.nil_append, List.cons_append]
    cases t with
    | nil => rfl
    | cons c t' =>
        have hc : c ≠ '\n' := hhead c t' rfl
        rw [hasTripleNewline_two_nl c t' hc]
        rw [hasTripleNewline_cons_ne c t' hc] at ht
        exact ht

/-- The collapsed list never contains three consecutive newlines. -/
theorem hasTripleNewline_collapseGo (l : List Char) :
    ∀ k : ℕ, hasTripleNewline (collapseGo k l) = false := by
  induction l with
  | nil =>
      intro k
      show hasTripleNewline (List.replicate (if 3 ≤ k then 2 else k) '\n') = false
      have := hasTripleNewline_replicate_pad (if 3 ≤ k then 2 else k)
        (by split <;> omega) [] (by intro c t' h; cases h) rfl
      simpa using this
  | cons c rest ih =>
      intro k
      by_cases hc : c = '\n'
      · subst hc
        show hasTripleNewline (collapseGo (k + 1) rest) = false
        exact ih (k + 1)
      · show hasTripleNewline (if c = '\n' then collapseGo (k + 1) rest
          else List.replicate (if 3 ≤ k then 2 else k) '\n' ++
            c :: collapseGo 0 rest) = false
        rw [if_neg hc]
        refine hasTripleNewline_replicate_pad _ (by split <;> omega) _ ?_ ?_
        · intro c' t' h
          injection h with h1 _
          exact h1 ▸ hc
        · rw [hasTripleNewline_cons_ne c _ hc]
          exact ih 0

/-- Characters of the collapsed list are newlines or characters of the
input. -/
theorem mem_collapseGo (l : List Char) :
    ∀ k x, x ∈ collapseGo k l → x = '\n' ∨ x ∈ l := by
  induction l with
  | nil =>
      intro k x hx
      left
      have : x ∈ List.replicate (if 3 ≤ k then 2 else k) '\n' := hx
      exact List.eq_of_mem_replicate this
  | cons c rest ih =>
      intro k x hx
      by_cases hc : c = '\n'
      · subst hc
        rcases ih (k + 1) x hx with h | h
        · exact Or.inl h
        · exact Or.inr (List.mem_cons_of_mem _ h)
      · have hx' : x ∈ List.replicate (if 3 ≤ k then 2 else k) '\n' ++
            c :: collapseGo 0 rest := by
          have hstep : collapseGo k (c :: rest) =
              List.replicate (if 3 ≤ k then 2 else k) '\n' ++
                c :: collapseGo 0 rest := by
            show (if c = '\n' then collapseGo (k + 1) rest
              else List.replicate (if 3 ≤ k then 2 else k) '\n' ++
                c :: collapseGo 0 rest) = _
            rw [if_neg hc]
          rw [← hstep]
          exact hx
        rcases List.mem_append.mp hx' with h | h
        · exact Or.inl (List.eq_of_mem_replicate h)
        · rcases List.mem_cons.mp h with h | h
          · exact Or.inr (h ▸ List.mem_cons_self _ _)
          · rcases ih 0 x h with h' | h'
            · exact Or.inl h'
            · exact Or.inr (List.mem_cons_of_mem _ h')

/-- The pass `removeDoubleStar` is the identity on star-free lists. -/
theorem removeDoubleStar_no_star (l : List Char) :
    '*' ∉ l → removeDoubleStar l = l := by
  induction l with
  | nil => intro _; rfl
  | cons a t ih =>
      intro h
      have ha : a ≠ '*' := fun hh => h (by rw [hh]; exact List.mem_cons_self _ _)
      cases t with
      | nil => rfl
      | cons b rest =>
          have h' : '*' ∉ b :: rest := fun hh => h (List.mem_cons_of_mem _ hh)
          show (if a = '*' ∧ b = '*' then removeDoubleStar rest
            else a :: removeDoubleStar (b :: rest)) = a :: b :: rest
          rw [if_neg (fun hab => ha hab.1), ih h']

theorem removeStar_no_star (l : List Char) : '*' ∉ l → removeStar l = l := by
  intro h
  unfold removeStar
  rw [List.filter_eq_self]
  intro c hc
  simp only [ne_eq, decide_not, Bool.not_eq_true', decide_eq_false_iff_not]
  exact fun hh => h (hh ▸ hc)

/-- C8 (amended): the delivered chat response never contains `*`; and when
the backend response itself contains no `*`, it also contains no run of
three or more newlines (asterisk removal can otherwise join two short
newline runs into a long one). -/
theorem sendChatResponse_spec (backend : String) :
    (∀ c ∈ (sendChatResponse backend).toList, c ≠ '*') ∧
    ('*' ∉ backend.toList →
      hasTripleNewline (sendChatResponse backend).toList = false) := by
  constructor
  · intro c hc
    unfold sendChatResponse at hc
    by_cases hb : backend = ""
    · rw [if_pos hb, hb] at hc
      simp [String.toList] at hc
    · rw [if_neg hb] at hc
      unfold cleanResponse at hc
      rw [List.toList_asString] at hc
      have := List.of_mem_filter hc
      simpa using this
  · intro hstar
    unfold sendChatResponse
    by_cases hb : backend = ""
    · rw [if_pos hb, hb]
      rfl
    · rw [if_neg hb]
      unfold cleanResponse
      rw [List.toList_asString]
      have h1 : '*' ∉ collapseNewlines backend.toList := by
        intro hmem
        rcases mem_collapseGo backend.toList 0 '*' hmem with h | h
        · exact absurd h (by decide)
        · exact hstar h
      rw [removeDoubleStar_no_star _ h1, removeStar_no_star _ h1]
      exact hasTripleNewline_collapseGo backend.toList 0

/-- Witness for C8 (amended): a starred backend string loses its asterisks,
and a star-free backend string with a four-newline run is delivered without
any triple newline. -/
theorem sendChatResponse_spec_witness :
    ('h' ∈ (sendChatResponse "**hi**").toList ∧ 'h' ≠ '*') ∧
    ('*' ∉ ("ok" ++ "\n\n\n\n" ++ "bye" : String).toList ∧
      hasTripleNewline
        (sendChatResponse ("ok" ++ "\n\n\n\n" ++ "bye")).toList = false) :=
  ⟨⟨by decide, (sendChatResponse_spec "**hi**").1 'h' (by decide)⟩,
   by decide,
   (sendChatResponse_spec ("ok" ++ "\n\n\n\n" ++ "bye")).2 (by decide)⟩

/-! ### Upload phase lifecycle (C7), `src/components/FileUpload.tsx`

`handleUpload` resets `progress := 0`, `uploadPhase := 'uploading'` and the
two toast-guard refs, then starts a 500 ms `setInterval` running the
simulated progress; the phase is advanced by that timer from the simulated
progress value alone. On settlement of the upload promise (success or
timeout-like error) the handler sets `progress := 100`,
`uploadPhase := 'complete'`. Each interval firing draws
`r = Math.random() ∈ [0, 1)`. -/

/-- The four phases of the simulated upload. -/
inductive UploadPhase where
  | uploading | processing | saving | complete
deriving DecidableEq, Repr

/-- Position of a phase in the lifecycle order. -/
def phaseIdx : UploadPhase → ℕ
  | .uploading => 0
  | .processing => 1
  | .saving => 2
  | .complete => 3

/-- The component state the interval callback touches: `progress`,
`uploadPhase`, and the `toastShownRef` flags. -/
structure UploadUIState where
  progress : ℚ
  uploadPhase : UploadPhase
  processingShown : Bool
  savingShown : Bool
deriving DecidableEq, Repr

/-- State set by `handleUpload` before the interval starts. -/
def initUploadState : UploadUIState :=
  ⟨0, .uploading, false, false⟩

/-- One firing of the progress interval with random draw `r`. -/
def uploadTick (r : ℚ) (s : UploadUIState) : UploadUIState :=
  if s.progress < 30 then
    { s with progress := s.progress + r * 8 }
  else if s.progress < 80 then
    if s.processingShown then { s with progress := s.progress + r * 3 }
    else { s with uploadPhase := .processing, processingShown := true,
                  progress := s.progress + r * 3 }
  else if s.progress < 95 then
    if s.savingShown then { s with progress := s.progress + r * 2 }
    else { s with uploadPhase := .saving, savingShown := true,
                  progress := s.progress + r * 2 }
  else s

/-- A sequence of interval firings. -/
def runTicks (rs : List ℚ) (s : UploadUIState) : UploadUIState :=
  rs.foldl (fun s r => uploadTick r s) s

/-- Settlement of the upload promise (success, or the timeout-as-pending
path): `setProgress(100); setUploadPhase('complete')`. -/
def settleComplete (s : UploadUIState) : UploadUIState :=
  { s with progress := 100, uploadPhase := .complete }

/-- Invariant maintained by the interval while the upload is in flight. -/
def TickInv (s : UploadUIState) : Prop :=
  s.uploadPhase ≠ .complete ∧
  (s.savingShown = true ↔ s.uploadPhase = .saving) ∧
  (s.processingShown = true ↔
    (s.uploadPhase = .processing ∨ s.uploadPhase = .saving)) ∧
  (s.uploadPhase = .processing → 30 ≤ s.progress) ∧
  (s.uploadPhase = .saving → 80 ≤ s.progress) ∧
  (80 ≤ s.progress → s.processingShown = true)

theorem tickInv_init : TickInv initUploadState := by
  refine ⟨by decide, by decide, by decide, ?_, ?_, ?_⟩ <;> decide

theorem uploadTick_inv (r : ℚ) (s : UploadUIState)
    (h0 : 0 ≤ r) (h1 : r ≤ 1) (hs : TickInv s) : TickInv (uploadTick r s) := by
  obtain ⟨hnc, hsav, hproc, hp30, hs80, h80p⟩ := hs
  unfold uploadTick
  split_ifs with hA hB hPS hC hSS
  · exact ⟨hnc, hsav, hproc,
      fun hph => absurd (hp30 hph) (by linarith),
      fun hph => absurd (hs80 hph) (by linarith),
      fun hpr => absurd hpr (by simp only [not_le]; linarith)⟩
  · exact ⟨hnc, hsav, hproc,
      fun _ => by simp only; linarith,
      fun hph => absurd (hs80 hph) (by linarith),
      fun _ => hPS⟩
  · have hnotsav : s.uploadPhase ≠ .saving := by
      intro hph
      exact hPS (hproc.mpr (Or.inr hph))
    have hsavf : s.savingShown = false := by
      cases hsv : s.savingShown
      · rfl
      · exact absurd (hsav.mp hsv) hnotsav
    exact ⟨by simp, by simp [hsavf], by simp,
      fun _ => by simp only; linarith,
      by simp,
      fun _ => rfl⟩
  · exact ⟨hnc, hsav, hproc,
      fun _ => by simp only; linarith,
      fun _ => by simp only; linarith,
      fun _ => h80p (by linarith)⟩
  · have hpr80 : (80 : ℚ) ≤ s.progress := by linarith
    exact ⟨by simp, by simp, by simp [h80p hpr80],
      by simp,
      fun _ => by simp only; linarith,
      fun _ => h80p hpr80⟩
  · exact ⟨hnc, hsav, hproc, hp30, hs80, h80p⟩

theorem uploadTick_phase_mono (r : ℚ) (s : UploadUIState) (hs : TickInv s) :
    phaseIdx s.uploadPhase ≤ phaseIdx (uploadTick r s).uploadPhase := by
  obtain ⟨hnc, hsav, hproc, _, _, _⟩ := hs
  unfold uploadTick
  split_ifs with hA hB hPS hC hSS
  · exact le_refl _
  · exact le_refl _
  · have : s.uploadPhase = .uploading := by
      cases hph : s.uploadPhase
      · rfl
      · exact absurd (hproc.mpr (Or.inl hph)) hPS
      · exact absurd (hproc.mpr (Or.inr hph)) hPS
      · exact absurd hph hnc
    rw [this]
    exact Nat.zero_le _
  · exact le_refl _
  · have hnotsav : s.uploadPhase ≠ .saving := by
      intro hph
      exact hSS (hsav.mpr hph)
    cases hph : s.uploadPhase
    · exact Nat.zero_le _
    · show phaseIdx .processing ≤ phaseIdx .saving
      decide
    · exact absurd hph hnotsav
    · exact absurd hph hnc
  · exact le_refl _

theorem runTicks_inv_mono (rs : List ℚ) :
    ∀ s : UploadUIState, TickInv s → (∀ r ∈ rs, 0 ≤ r ∧ r ≤ 1) →
      TickInv (runTicks rs s) ∧
      phaseIdx s.uploadPhase ≤ phaseIdx (runTicks rs s).uploadPhase := by
  induction rs with
  | nil => intro s hs _; exact ⟨hs, le_refl _⟩
  | cons r rest ih =>
      intro s hs hb
      have hr := hb r (List.mem_cons_self _ _)
      have hrest : ∀ r' ∈ rest, 0 ≤ r' ∧ r' ≤ 1 :=
        fun r' hr' => hb r' (List.mem_cons_of_mem _ hr')
      have hinv : TickInv (uploadTick r s) := uploadTick_inv r s hr.1 hr.2 hs
      have hres := ih (uploadTick r s) hinv hrest
      exact ⟨hres.1,
        le_trans (uploadTick_phase_mono r s hs) hres.2⟩

/-- C7: the simulated phase, driven solely by the interval timer over the
simulated progress, only moves forward along the lifecycle order: along any
run the phase at a prefix never exceeds the phase later on, `saving` occurs
only after `processing` has been entered, the timer alone never reaches
`complete`, and the settlement transition (to `complete`) is also a forward
move. -/
theorem uploadPhase_forward (pre suf : List ℚ)
    (h : ∀ r ∈ pre ++ suf, 0 ≤ r ∧ r ≤ 1) :
    phaseIdx ((runTicks pre initUploadState).uploadPhase) ≤
      phaseIdx ((runTicks (pre ++ suf) initUploadState).uploadPhase) ∧
    ((runTicks (pre ++ suf) initUploadState).uploadPhase = .saving →
      (runTicks (pre ++ suf) initUploadState).processingShown = true) ∧
    (runTicks (pre ++ suf) initUploadState).uploadPhase ≠ .complete ∧
    phaseIdx ((runTicks (pre ++ suf) initUploadState).uploadPhase) ≤
      phaseIdx ((settleComplete
        (runTicks (pre ++ suf) initUploadState)).uploadPhase) := by
  have hpre : ∀ r ∈ pre, 0 ≤ r ∧ r ≤ 1 :=
    fun r hr => h r (List.mem_append.mpr (Or.inl hr))
  have hsuf : ∀ r ∈ suf, 0 ≤ r ∧ r ≤ 1 :=
    fun r hr => h r (List.mem_append.mpr (Or.inr hr))
  have hsplit : runTicks (pre ++ suf) initUploadState =
      runTicks suf (runTicks pre initUploadState) := by
    unfold runTicks
    exact List.foldl_append ..
  have h1 := runTicks_inv_mono pre initUploadState tickInv_init hpre
  have h2 := runTicks_inv_mono suf (runTicks pre initUploadState) h1.1 hsuf
  refine ⟨?_, ?_, ?_, ?_⟩
  · rw [hsplit]; exact h2.2
  · rw [hsplit]
    intro hph
    exact h2.1.2.2.1.mpr (Or.inr hph)
  · rw [hsplit]; exact h2.1.1
  · show _ ≤ phaseIdx .complete
    cases (runTicks (pre ++ suf) initUploadState).uploadPhase <;> decide

/-- Witness for C7 at a concrete run: three bounded random draws before a
further bounded draw. -/
theorem uploadPhase_forward_witness :
    phaseIdx ((runTicks [1, 0, 1] initUploadState).uploadPhase) ≤
      phaseIdx ((runTicks ([1, 0, 1] ++ [1]) initUploadState).uploadPhase) ∧
    ((runTicks ([1, 0, 1] ++ [1]) initUploadState).uploadPhase = .saving →
      (runTicks ([1, 0, 1] ++ [1]) initUploadState).processingShown = true) ∧
    (runTicks ([1, 0, 1] ++ [1]) initUploadState).uploadPhase ≠ .complete ∧
    phaseIdx ((runTicks ([1, 0, 1] ++ [1]) initUploadState).uploadPhase) ≤
      phaseIdx ((settleComplete
        (runTicks ([1, 0, 1] ++ [1]) initUploadState)).uploadPhase) :=
  uploadPhase_forward [1, 0, 1] [1] (by decide)

end FinanceCoach
